import Mathlib

/-!
Shallow embedding of `src/app/main.py` (scraperfastapi): the price scraper's
text normalization (`clean_price`), selector registry (`get_selectors`),
per-task scraping (`scrape_prices`, with an explicit event trace and an
environment abstracting the browser/page), and the batch pipeline
(`process_single_query`, `process_sheet_queries`, `extract_search_queries`,
`save_results` header).
-/

namespace Scraper

/-! ## Character classes of the regex `(\d[\d\s]*[.,]?\d{0,2})`

`\d` is modelled as the ASCII digits (the inputs of interest are ASCII
digit runs); `\s` as the six ASCII whitespace characters Python's `\s`
always matches. -/

def isDig (c : Char) : Bool := c.isDigit

def isSpc (c : Char) : Bool :=
  c = ' ' || c = '\t' || c = '\n' || c = '\x0d' || c = '\x0b' || c = '\x0c'

/-- `price_text.replace('\xa0', ' ')`: non-breaking spaces become spaces. -/
def nbspFix (s : List Char) : List Char :=
  s.map (fun c => if c = '\xa0' then ' ' else c)

/-- `[.,]?\d{0,2}` applied greedily to what follows the digit/space run: one
separator when the next character is `.` or `,`, then up to two digits. -/
def matchSep : List Char → List Char
  | [] => []
  | c :: rest3 => if c = '.' || c = ',' then c :: (rest3.takeWhile isDig).take 2 else []

/-- The match of `\d[\d\s]*[.,]?\d{0,2}` anchored at `s`, whose head must be a
digit.  The greedy `[\d\s]*` takes the maximal digit/whitespace run; since the
remaining atoms (`[.,]?`, `\d{0,2}`) can match the empty string, the regex
engine never backtracks past it. -/
def matchNum (s : List Char) : List Char :=
  match s with
  | [] => []
  | d :: rest =>
    d :: (rest.takeWhile (fun c => isDig c || isSpc c)
      ++ matchSep (rest.dropWhile (fun c => isDig c || isSpc c)))

/-- `re.search`: leftmost match.  The pattern can only start at a digit, and
succeeds at every digit, so the match is anchored at the first digit. -/
def searchNum : List Char → Option (List Char)
  | [] => none
  | c :: rest => if isDig c then some (matchNum (c :: rest)) else searchNum rest

/-- `match.group(1).replace(' ', '').replace(',', '.')`. -/
def cleanupMatch (g : List Char) : List Char :=
  (g.filter (fun c => c ≠ ' ')).map (fun c => if c = ',' then '.' else c)

/-- `clean_price` of src/app/main.py: replace NBSP by space, search the
pattern, and either return the cleaned-up group followed by one space
(`f"{...} "`), or the sentinel `"Цена по запросу"`. -/
def clean_price (s : String) : String :=
  let t := nbspFix s.data
  match searchNum t with
  | some g => ⟨cleanupMatch g ++ [' ']⟩
  | none => "Цена по запросу"

example : clean_price "12 345,67 ₸" = "12345.67 " := by decide
example : clean_price "1\t2" = "1\t2 " := by decide
example : clean_price "abc" = "Цена по запросу" := by decide
example : clean_price "100 ₸" = "100 " := by decide
example : clean_price "12\xa0345,67" = "12345.67 " := by decide

/-! ## Selector registry (`get_selectors`) -/

/-- Selenium `By` strategies used by the selector map. -/
inductive Strategy where
  | className
  | xpath
  | cssSelector
deriving DecidableEq, Repr

/-- A `(By-strategy, selector-string)` pair. -/
abbrev Locator := Strategy × String

/-- Python's `needle in haystack` on strings: contiguous-substring test. -/
def containsSub (needle : List Char) : List Char → Bool
  | [] => needle.isEmpty
  | c :: t => needle.isPrefixOf (c :: t) || containsSub needle t

/-- `urlparse(url).netloc` for the http(s)-style URLs the program uses: the
text after the first `//` up to the next `/`, `?` or `#` (empty when the URL
has no `//`). -/
def netloc (url : String) : String :=
  let rec go : List Char → List Char
    | [] => []
    | '/' :: '/' :: r => r.takeWhile (fun c => c ≠ '/' && c ≠ '?' && c ≠ '#')
    | _ :: r => go r
  ⟨go url.data⟩

example : netloc "https://220volt.kz/search?query=" = "220volt.kz" := by decide
example : netloc "https://elcentre.kz/site_search?search_term=" = "elcentre.kz" := by decide

/-- The `selector_map` dict of `get_selectors`, in insertion order (Python
dicts iterate in insertion order).  Every entry is a 4-tuple in the source,
i.e. a `(container locator, price locator)` pair here; the source's
`len(selectors) == 2` branch is dead. -/
def selector_map : List (String × (Locator × Locator)) :=
  [ ("nur-electro.kz", ((Strategy.className, "products"), (Strategy.className, "price"))),
    ("euroelectric.kz", ((Strategy.className, "product-item"), (Strategy.className, "product-price"))),
    ("220volt.kz", ((Strategy.className, "cards__list"), (Strategy.className, "product__buy-info-price-actual_value"))),
    ("ekt.kz", ((Strategy.className, "left-block"), (Strategy.className, "price"))),
    ("intant.kz", ((Strategy.className, "product_card__block_item_inner"), (Strategy.className, "product-card-inner__new-price"))),
    ("elcentre.kz", ((Strategy.className, "b-product-gallery"), (Strategy.xpath, ".//span[@class='b-product-gallery__current-price']"))),
    ("albion-group.kz", ((Strategy.className, "cs-product-gallery"), (Strategy.cssSelector, "span.cs-goods-price__value.cs-goods-price__value_type_current"))),
    ("volt.kz", ((Strategy.className, "multi-snippet"), (Strategy.xpath, ".//span[@class='multi-price']"))) ]

/-- `get_selectors`: first entry whose domain key is a substring of the URL's
netloc wins; `none` models the `raise ValueError(f"Unsupported URL: ...")`. -/
def get_selectors (target_url : String) : Option (Locator × Locator) :=
  let domain := netloc target_url
  (selector_map.find? (fun kv => containsSub kv.1.data domain.data)).map (fun kv => kv.2)

example : get_selectors "https://220volt.kz/search?query=" =
    some ((Strategy.className, "cards__list"),
      (Strategy.className, "product__buy-info-price-actual_value")) := by decide
example : get_selectors "https://example.com/?q=" = none := by decide

/-! ## One scraping task (`scrape_prices`)

The browser and remote page are abstracted by `PageEnv`; a task is a pure
function of it.  `Ev` traces the externally visible session effects in the
order the source performs them. -/

/-- Abstraction of the browser/page for one `(query, target_url)` task:
whether `webdriver.Chrome(...)` launches, whether the 15-second
`WebDriverWait` for the container locator succeeds, and the containers
`find_elements` returns, each optionally holding a price element's text
(`none` models `NoSuchElementException` inside the container). -/
structure PageEnv where
  sessionOk : Bool
  waitOk : Bool
  containers : List (Option String)
deriving DecidableEq, Repr

/-- Session-visible events of one task, in program order. -/
inductive Ev where
  | acquire
  | navigate (url : String)
  | resolve (url : String)
  | wait
  | release
deriving DecidableEq, Repr

/-- A task either returns a list of strings or lets an exception escape
(`raised` happens only when `WebDriverManager().get_driver()` fails, since
that call is outside the `try`). -/
inductive Outcome where
  | ok (prices : List String)
  | raised
deriving DecidableEq, Repr

/-- `scrape_prices(query, target_url)` under `env`, returning the outcome and
the event trace.  Source order: `get_driver` (outside `try`), then inside the
`try`: `driver.get(full_url)`, `get_selectors(target_url)`, the 15s wait,
the scan of `products[:5]` skipping containers whose price element is absent,
and `prices if prices else ["Не найдено"]`; `except Exception` returns `[]`;
`finally` only logs (no `driver.quit()` anywhere). -/
def scrape_prices (query target_url : String) (env : PageEnv) : Outcome × List Ev :=
  if env.sessionOk then
    let evs := [Ev.acquire, Ev.navigate (target_url ++ query), Ev.resolve target_url]
    match get_selectors target_url with
    | none => (Outcome.ok [], evs)
    | some _ =>
      if env.waitOk then
        let prices := (env.containers.take 5).filterMap (fun c => c.map clean_price)
        (Outcome.ok (if prices.isEmpty then ["Не найдено"] else prices), evs ++ [Ev.wait])
      else (Outcome.ok [], evs ++ [Ev.wait])
  else (Outcome.raised, [])

/-! ## Batch pipeline -/

/-- `TARGET_URLS` of the source, in registration order. -/
def TARGET_URLS : List String :=
  ["https://220volt.kz/search?query=", "https://elcentre.kz/site_search?search_term="]

/-- A result cell as built by `process_single_query`:
`result if result else "Не найдено"` — the list itself when non-empty,
the bare sentinel string otherwise. -/
inductive Cell where
  | prices (ps : List String)
  | notFound
deriving DecidableEq, Repr

def toCell (ps : List String) : Cell :=
  if ps.isEmpty then Cell.notFound else Cell.prices ps

/-- Sequencing of `asyncio.gather`: all results in input order, or the first
exception propagates (`none`). -/
def seqO {α : Type} : List (Option α) → Option (List α)
  | [] => some []
  | none :: _ => none
  | some a :: t => (seqO t).map (fun l => a :: l)

/-- A scraping environment for a whole batch: the page seen by each
`(query, target_url)` task. -/
abbrev BatchEnv := String → String → PageEnv

/-- `process_single_query(query)`: one row `[query] + cells`, one cell per
`TARGET_URLS` entry in order; `none` when some task raised (the `gather`
propagates the exception and the row is never built). -/
def process_single_query (query : String) (env : BatchEnv) : Option (String × List Cell) :=
  (seqO (TARGET_URLS.map (fun u =>
    match (scrape_prices query u (env query u)).1 with
    | Outcome.ok ps => some (toCell ps)
    | Outcome.raised => none))).map (fun cells => (query, cells))

/-- `process_sheet_queries`: gather over the sheet's queries. -/
def process_sheet_queries (queries : List String) (env : BatchEnv) :
    Option (List (String × List Cell)) :=
  seqO (queries.map (fun q => process_single_query q env))

/-- One input sheet: whether the `'Артикул'` column exists, and its cells
(`none` models a NaN/blank cell, dropped by `dropna()`). -/
structure Sheet where
  hasArtikul : Bool
  artikul : List (Option String)
deriving DecidableEq, Repr

/-- `extract_search_queries`: sheets with the identifier column, in workbook
order, each with its non-blank identifiers in row order. -/
def extract_search_queries (dfs : List (String × Sheet)) : List (String × List String) :=
  dfs.filterMap (fun p =>
    if p.2.hasArtikul then some (p.1, p.2.artikul.filterMap id) else none)

/-- `process_all_sheets` followed by `save_results`' data assembly: `none`
when any task raised (then `process_excel_file` catches, logs, and writes
nothing). -/
def process_all_sheets (dfs : List (String × Sheet)) (env : BatchEnv) :
    Option (List (String × List (String × List Cell))) :=
  seqO ((extract_search_queries dfs).map (fun p =>
    (process_sheet_queries p.2 env).map (fun rows => (p.1, rows))))

/-- The header row `save_results` writes on every sheet:
`['Артикул'] + [urlparse(url).netloc for url in TARGET_URLS]`. -/
def result_header : List String :=
  "Артикул" :: TARGET_URLS.map netloc

example : result_header = ["Артикул", "220volt.kz", "elcentre.kz"] := by decide

/-- `search_artikul` (the interactive `/search` endpoint): per target URL a
`(artikul, url, prices)` record where empty prices become `["Не найдено"]`;
`none` models the `except` branch answering `{"error": ...}`. -/
def search_artikul (artikul : String) (env : BatchEnv) :
    Option (List (String × String × List String)) :=
  (seqO (TARGET_URLS.map (fun u =>
    match (scrape_prices artikul u (env artikul u)).1 with
    | Outcome.ok ps => some (artikul, u, if ps.isEmpty then ["Не найдено"] else ps)
    | Outcome.raised => none)))

/-! ## Structural lemmas about the normalizer -/

/-- The decimal-separator class `[.,]`. -/
def sepP (c : Char) : Bool := c = '.' || c = ','

theorem matchSep_mem {l : List Char} {c : Char} (hc : c ∈ matchSep l) :
    sepP c = true ∨ isDig c = true := by
  cases l with
  | nil => simp [matchSep] at hc
  | cons a rest3 =>
    simp only [matchSep] at hc
    by_cases ha : (a = '.' || a = ',') = true
    · rw [if_pos ha] at hc
      rcases List.mem_cons.mp hc with h | h
      · subst h; exact Or.inl ha
      · exact Or.inr (List.mem_takeWhile_imp (List.take_subset 2 _ h))
    · rw [if_neg ha] at hc; simp at hc

theorem matchSep_sep_count (l : List Char) : (matchSep l).countP sepP ≤ 1 := by
  cases l with
  | nil => simp [matchSep]
  | cons a rest3 =>
    simp only [matchSep]
    by_cases ha : (a = '.' || a = ',') = true
    · rw [if_pos ha]
      rw [List.countP_cons]
      have hz : ((rest3.takeWhile isDig).take 2).countP sepP = 0 := by
        rw [List.countP_eq_zero]
        intro c hc
        have hd : isDig c = true := List.mem_takeWhile_imp (List.take_subset 2 _ hc)
        intro hs
        rcases Bool.or_eq_true_iff.mp hs with h | h
        · rw [of_decide_eq_true h] at hd; simp [isDig] at hd
        · rw [of_decide_eq_true h] at hd; simp [isDig] at hd
      have hsep : sepP a = true := ha
      rw [hz, hsep]
      simp
    · rw [if_neg ha]; simp

theorem matchNum_mem {d : Char} {rest : List Char} {c : Char}
    (hc : c ∈ matchNum (d :: rest)) :
    c = d ∨ isDig c = true ∨ isSpc c = true ∨ sepP c = true := by
  simp only [matchNum] at hc
  rcases List.mem_cons.mp hc with h | h
  · exact Or.inl h
  · rcases List.mem_append.mp h with h | h
    · have := List.mem_takeWhile_imp h
      rcases Bool.or_eq_true_iff.mp this with h | h
      · exact Or.inr (Or.inl h)
      · exact Or.inr (Or.inr (Or.inl h))
    · rcases matchSep_mem h with h | h
      · exact Or.inr (Or.inr (Or.inr h))
      · exact Or.inr (Or.inl h)

theorem isDig_not_sep {c : Char} (h : isDig c = true) : sepP c = false := by
  simp only [sepP, Bool.or_eq_false_iff, decide_eq_false_iff_not]
  exact ⟨fun hc => by rw [hc] at h; exact absurd h (by decide),
         fun hc => by rw [hc] at h; exact absurd h (by decide)⟩

theorem isSpc_not_sep {c : Char} (h : isSpc c = true) : sepP c = false := by
  simp only [sepP, Bool.or_eq_false_iff, decide_eq_false_iff_not]
  exact ⟨fun hc => by rw [hc] at h; exact absurd h (by decide),
         fun hc => by rw [hc] at h; exact absurd h (by decide)⟩

theorem matchNum_sep_count {d : Char} {rest : List Char} (hd : isDig d = true) :
    (matchNum (d :: rest)).countP sepP ≤ 1 := by
  simp only [matchNum]
  rw [List.countP_cons, List.countP_append]
  have h1 : (rest.takeWhile (fun c => isDig c || isSpc c)).countP sepP = 0 := by
    rw [List.countP_eq_zero]
    intro c hc hs
    have := List.mem_takeWhile_imp hc
    rcases Bool.or_eq_true_iff.mp this with h | h
    · rw [isDig_not_sep h] at hs; exact Bool.false_ne_true hs
    · rw [isSpc_not_sep h] at hs; exact Bool.false_ne_true hs
  have h2 := matchSep_sep_count (rest.dropWhile (fun c => isDig c || isSpc c))
  rw [h1, isDig_not_sep hd]
  simpa using h2

/-- `re.search` fails exactly on digit-free text. -/
theorem searchNum_eq_none {s : List Char} :
    searchNum s = none ↔ ∀ c ∈ s, isDig c = false := by
  induction s with
  | nil => simp [searchNum]
  | cons a t ih =>
    simp only [searchNum]
    by_cases ha : isDig a = true
    · rw [if_pos ha]
      constructor
      · intro h; exact absurd h (by simp)
      · intro h; exact absurd ha (by simp [h a (List.mem_cons_self a t)])
    · rw [if_neg ha]
      rw [ih]
      constructor
      · intro h c hc
        rcases List.mem_cons.mp hc with h1 | h1
        · subst h1; exact Bool.eq_false_iff.mpr ha
        · exact h c h1
      · intro h c hc; exact h c (List.mem_cons_of_mem a hc)

/-- A successful `re.search` returns the anchored match at some suffix whose
head is a digit. -/
theorem searchNum_eq_some {s g : List Char} (h : searchNum s = some g) :
    ∃ d rest, isDig d = true ∧ g = matchNum (d :: rest) := by
  induction s with
  | nil => simp [searchNum] at h
  | cons a t ih =>
    simp only [searchNum] at h
    by_cases ha : isDig a = true
    · rw [if_pos ha] at h
      exact ⟨a, t, ha, (Option.some.injEq _ _ ▸ h).symm⟩
    · rw [if_neg ha] at h
      exact ih h

theorem mem_cleanupMatch {g : List Char} {c : Char} (hc : c ∈ cleanupMatch g) :
    ∃ a ∈ g, a ≠ ' ' ∧ c = (if a = ',' then '.' else a) := by
  rcases List.mem_map.mp hc with ⟨a, ha, hfa⟩
  rcases List.mem_filter.mp ha with ⟨hag, hne⟩
  exact ⟨a, hag, by simpa using hne, hfa.symm⟩

theorem cleanupMatch_no_space {g : List Char} : ' ' ∉ cleanupMatch g := by
  intro h
  rcases mem_cleanupMatch h with ⟨a, _, hne, heq⟩
  by_cases ha : a = ','
  · rw [if_pos ha] at heq; exact absurd heq.symm (by decide)
  · rw [if_neg ha] at heq; exact hne heq.symm

theorem cleanupMatch_no_comma {g : List Char} : ',' ∉ cleanupMatch g := by
  intro h
  rcases mem_cleanupMatch h with ⟨a, _, _, heq⟩
  by_cases ha : a = ','
  · rw [if_pos ha] at heq; exact absurd heq.symm (by decide)
  · rw [if_neg ha] at heq; exact ha heq.symm

theorem cleanupMatch_period_count {g : List Char} :
    (cleanupMatch g).countP (fun c => c = '.') ≤ g.countP sepP := by
  unfold cleanupMatch
  rw [List.countP_map]
  calc (g.filter (fun c => c ≠ ' ')).countP
        ((fun c => decide (c = '.')) ∘ fun c => if c = ',' then '.' else c)
      ≤ g.countP ((fun c => decide (c = '.')) ∘ fun c => if c = ',' then '.' else c) :=
        (List.filter_sublist g).countP_le _
    _ ≤ g.countP sepP := by
        apply List.countP_mono_left
        intro a _ h
        simp only [Function.comp] at h
        by_cases ha : a = ','
        · simp [sepP, ha]
        · simp only [if_neg ha] at h
          simp only [sepP, Bool.or_eq_true_iff]
          exact Or.inl h

theorem clean_price_eq_of_search {s : String} {g : List Char}
    (h : searchNum (nbspFix s.data) = some g) :
    clean_price s = ⟨cleanupMatch g ++ [' ']⟩ := by
  simp only [clean_price, h]

theorem clean_price_eq_of_search_none {s : String}
    (h : searchNum (nbspFix s.data) = none) :
    clean_price s = "Цена по запросу" := by
  simp only [clean_price, h]

theorem searchNum_mem {s g : List Char} (h : searchNum s = some g) :
    ∀ c ∈ g, isDig c = true ∨ isSpc c = true ∨ sepP c = true := by
  rcases searchNum_eq_some h with ⟨d, rest, hd, hg⟩
  subst hg
  intro c hc
  rcases matchNum_mem hc with h1 | h1 | h1 | h1
  · subst h1; exact Or.inl hd
  · exact Or.inl h1
  · exact Or.inr (Or.inl h1)
  · exact Or.inr (Or.inr h1)

theorem searchNum_sep_count {s g : List Char} (h : searchNum s = some g) :
    g.countP sepP ≤ 1 := by
  rcases searchNum_eq_some h with ⟨d, rest, hd, hg⟩
  subst hg
  exact matchNum_sep_count hd

theorem searchNum_head_digit {s g : List Char} (h : searchNum s = some g) :
    ∃ d rest2, g = d :: rest2 ∧ isDig d = true := by
  rcases searchNum_eq_some h with ⟨d, rest, hd, hg⟩
  subst hg
  exact ⟨d, _, rfl, hd⟩

theorem comma_sepP : sepP ',' = true := by decide

theorem not_comma_of_sep_false {a : Char} (h : sepP a = false) : a ≠ ',' := by
  intro hc; subst hc; exact absurd h (by decide)

end Scraper

namespace Scraper

/-! ## Claims C1 and C8: the normalizer -/

/-- C1 counterexample: `"1\t2"` contains a digit run matching the numeric
pattern (the tab is matched by the regex's `\s`), yet `clean_price` returns
`"1\t2 "`, which retains internal whitespace — the claimed "digits with ...
no internal whitespace" shape fails, because only the ordinary space
character is stripped. -/
theorem C1_counterexample :
    clean_price "1\t2" = "1\t2 " ∧
    '\t' ∈ (clean_price "1\t2").data.dropLast ∧ isSpc '\t' = true := by
  decide

/-- C1 (amended): for every input whose NBSP-fixed text contains a digit run
(i.e. the regex search succeeds with group `g`), `clean_price` returns the
group with ordinary spaces stripped and commas turned into periods, followed
by exactly one trailing space; the body consists of digits, at most a single
period, and no space characters — though whitespace other than `' '`
(e.g. a tab) captured by `\s` is kept; in particular
`clean_price "12 345,67 ₸" = "12345.67 "`. -/
theorem C1_normalize_shape :
    (∀ (s : String) (g : List Char), searchNum (nbspFix s.data) = some g →
      clean_price s = ⟨cleanupMatch g ++ [' ']⟩ ∧
      (∀ c ∈ cleanupMatch g, isDig c = true ∨ (isSpc c = true ∧ c ≠ ' ') ∨ c = '.') ∧
      (cleanupMatch g).countP (fun c => c = '.') ≤ 1 ∧
      ' ' ∉ cleanupMatch g ∧ ',' ∉ cleanupMatch g) ∧
    clean_price "12 345,67 ₸" = "12345.67 " := by
  constructor
  · intro s g h
    refine ⟨clean_price_eq_of_search h, ?_, ?_, cleanupMatch_no_space, cleanupMatch_no_comma⟩
    · intro c hc
      rcases mem_cleanupMatch hc with ⟨a, hag, hane, heq⟩
      rcases searchNum_mem h a hag with h1 | h1 | h1
      · left
        have hnc : a ≠ ',' := not_comma_of_sep_false (isDig_not_sep h1)
        rw [heq, if_neg hnc]
        exact h1
      · right; left
        have hnc : a ≠ ',' := not_comma_of_sep_false (isSpc_not_sep h1)
        rw [heq, if_neg hnc]
        exact ⟨h1, hane⟩
      · right; right
        by_cases ha : a = ','
        · rw [heq, if_pos ha]
        · rw [heq, if_neg ha]
          rcases Bool.or_eq_true_iff.mp h1 with h2 | h2
          · exact of_decide_eq_true h2
          · exact absurd (of_decide_eq_true h2) ha
    · exact le_trans cleanupMatch_period_count (searchNum_sep_count h)
  · decide

theorem C1_normalize_shape_witness :
    clean_price "12 345,67 ₸" = ⟨cleanupMatch "12 345,67".data ++ [' ']⟩ :=
  (C1_normalize_shape.1 "12 345,67 ₸" "12 345,67".data (by decide)).1

/-- C8: `clean_price` is total and deterministic — it is a pure function that
for every input returns either the sentinel `"Цена по запросу"` or a numeric
string containing a digit and ending in the canonical trailing space; and for
every input without a digit it returns the sentinel. -/
theorem C8_normalize_total :
    ∀ s : String,
      (clean_price s = "Цена по запросу" ∨
        ((clean_price s).data.any isDig = true ∧
          (clean_price s).data.getLast? = some ' ')) ∧
      ((∀ c ∈ s.data, isDig c = false) → clean_price s = "Цена по запросу") := by
  intro s
  constructor
  · cases h : searchNum (nbspFix s.data) with
    | none => exact Or.inl (clean_price_eq_of_search_none h)
    | some g =>
      right
      rw [clean_price_eq_of_search h]
      constructor
      · rcases searchNum_head_digit h with ⟨d, rest2, hg, hd⟩
        rw [List.any_eq_true]
        refine ⟨d, ?_, hd⟩
        apply List.mem_append_left
        unfold cleanupMatch
        apply List.mem_map.mpr
        have hdm : d ∈ g.filter (fun c => c ≠ ' ') := by
          apply List.mem_filter.mpr
          refine ⟨hg ▸ List.mem_cons_self d rest2, ?_⟩
          simp only [decide_eq_true_iff]
          intro hsp
          rw [hsp] at hd
          exact absurd hd (by decide)
        refine ⟨d, hdm, ?_⟩
        rw [if_neg (not_comma_of_sep_false (isDig_not_sep hd))]
      · exact List.getLast?_concat _
  · intro hnd
    apply clean_price_eq_of_search_none
    rw [searchNum_eq_none]
    intro c hc
    rcases List.mem_map.mp hc with ⟨a, ha, hfa⟩
    by_cases hx : a = '\xa0'
    · rw [← hfa, if_pos hx]; decide
    · rw [← hfa, if_neg hx]; exact hnd a ha

theorem C8_normalize_total_witness :
    clean_price "Цена по запросу всем" = "Цена по запросу" :=
  (C8_normalize_total "Цена по запросу всем").2 (by decide)

end Scraper

namespace Scraper

/-! ## Helper lemmas for the task and pipeline claims -/

/-- A page where everything works and one container holds `"100 ₸"`. -/
def envOk : PageEnv := { sessionOk := true, waitOk := true, containers := [some "100 ₸"] }

/-- A page whose container wait exceeds the 15-second bound. -/
def envTimeout : PageEnv := { sessionOk := true, waitOk := false, containers := [] }

/-- A browser whose session fails to launch. -/
def envNoSession : PageEnv := { sessionOk := false, waitOk := true, containers := [] }

/-- Containers found, but no price element inside any of them. -/
def envNoPrices : PageEnv := { sessionOk := true, waitOk := true, containers := [none, none] }

theorem seqO_some_forall2 {α : Type} {l : List (Option α)} {bs : List α}
    (h : seqO l = some bs) : List.Forall₂ (fun o b => o = some b) l bs := by
  induction l generalizing bs with
  | nil =>
    simp only [seqO, Option.some.injEq] at h
    subst h
    exact List.Forall₂.nil
  | cons o t ih =>
    cases o with
    | none => simp [seqO] at h
    | some a =>
      simp only [seqO] at h
      rcases Option.map_eq_some'.mp h with ⟨ts, hts, hbs⟩
      subst hbs
      exact List.Forall₂.cons rfl (ih hts)

theorem seqO_map_forall2 {α β : Type} {f : α → Option β} {l : List α} {bs : List β}
    (h : seqO (l.map f) = some bs) :
    List.Forall₂ (fun a b => f a = some b) l bs :=
  List.forall₂_map_left_iff.mp (seqO_some_forall2 h)

theorem forall2_mem_right {α β : Type} {r : α → β → Prop} {l : List α} {bs : List β}
    (h : List.Forall₂ r l bs) {b : β} (hb : b ∈ bs) : ∃ a ∈ l, r a b := by
  induction h with
  | nil => cases hb
  | @cons a b2 l2 bs2 h1 _ ih =>
    rcases List.mem_cons.mp hb with h2 | h2
    · subst h2; exact ⟨a, List.mem_cons_self a l2, h1⟩
    · rcases ih h2 with ⟨a2, ha2, hr⟩
      exact ⟨a2, List.mem_cons_of_mem a ha2, hr⟩

theorem forall2_fst_eq {α β : Type} {qs : List α} {rows : List (α × β)}
    (h : List.Forall₂ (fun q row => row.1 = q) qs rows) :
    rows.map Prod.fst = qs := by
  induction h with
  | nil => rfl
  | cons h1 _ ih => simp only [List.map_cons, ih, h1]

/-- `scrape_prices` on a launch failure: the exception escapes with no
events. -/
theorem scrape_raised_val {q u : String} {e : PageEnv} (hs : e.sessionOk = false) :
    scrape_prices q u e = (Outcome.raised, []) := by
  simp [scrape_prices, hs]

/-- `scrape_prices` on an unsupported site: session acquired, page navigated,
then the resolution `ValueError` is swallowed and `[]` returned. -/
theorem scrape_none_val {q u : String} {e : PageEnv}
    (hs : e.sessionOk = true) (hgs : get_selectors u = none) :
    scrape_prices q u e =
      (Outcome.ok [], [Ev.acquire, Ev.navigate (u ++ q), Ev.resolve u]) := by
  simp [scrape_prices, hs, hgs]

/-- `scrape_prices` on a container-wait timeout: `TimeoutException` is
swallowed and `[]` returned. -/
theorem scrape_timeout_val {q u : String} {e : PageEnv} {sel : Locator × Locator}
    (hs : e.sessionOk = true) (hgs : get_selectors u = some sel)
    (hw : e.waitOk = false) :
    scrape_prices q u e =
      (Outcome.ok [], [Ev.acquire, Ev.navigate (u ++ q), Ev.resolve u, Ev.wait]) := by
  simp [scrape_prices, hs, hgs, hw]

/-- `scrape_prices` when the wait succeeds: scan of the first five
containers. -/
theorem scrape_success_val {q u : String} {e : PageEnv} {sel : Locator × Locator}
    (hs : e.sessionOk = true) (hgs : get_selectors u = some sel)
    (hw : e.waitOk = true) :
    scrape_prices q u e =
      (Outcome.ok (if ((e.containers.take 5).filterMap
          (fun c => c.map clean_price)).isEmpty then ["Не найдено"]
          else (e.containers.take 5).filterMap (fun c => c.map clean_price)),
        [Ev.acquire, Ev.navigate (u ++ q), Ev.resolve u, Ev.wait]) := by
  simp [scrape_prices, hs, hgs, hw]

/-- Outcome of the task body once the session is up: the source's
`except Exception` wraps everything after `get_driver`, so no exception ever
escapes a task with a live session. -/
theorem scrape_ok_of_session {q u : String} {e : PageEnv} (hs : e.sessionOk = true) :
    ∃ ps, (scrape_prices q u e).1 = Outcome.ok ps := by
  cases hgs : get_selectors u with
  | none => exact ⟨[], by rw [scrape_none_val hs hgs]⟩
  | some sel =>
    by_cases hw : e.waitOk
    · exact ⟨_, by rw [scrape_success_val hs hgs hw]⟩
    · exact ⟨[], by rw [scrape_timeout_val hs hgs (Bool.eq_false_iff.mpr hw)]⟩

theorem scrape_raised_iff {q u : String} {e : PageEnv} :
    (scrape_prices q u e).1 = Outcome.raised ↔ e.sessionOk = false := by
  constructor
  · intro h
    by_cases hs : e.sessionOk
    · rcases @scrape_ok_of_session q u e hs with ⟨ps, hps⟩
      rw [hps] at h
      cases h
    · exact Bool.eq_false_iff.mpr hs
  · intro h
    rw [scrape_raised_val h]

theorem seqO_of_forall_some {α : Type} {l : List (Option α)}
    (h : ∀ o ∈ l, o.isSome = true) : ∃ bs, seqO l = some bs := by
  induction l with
  | nil => exact ⟨[], rfl⟩
  | cons o t ih =>
    cases o with
    | none => exact absurd (h none (List.mem_cons_self none t)) (by simp)
    | some a =>
      rcases ih (fun o ho => h o (List.mem_cons_of_mem (some a) ho)) with ⟨bs, hbs⟩
      exact ⟨a :: bs, by simp [seqO, hbs]⟩

/-- Inversion of a successfully built row: the identifier is the query and
there is exactly one cell per target URL, each the rendering of its task's
returned list. -/
theorem process_single_query_some {q : String} {env : BatchEnv}
    {row : String × List Cell} (h : process_single_query q env = some row) :
    row.1 = q ∧ row.2.length = TARGET_URLS.length ∧
    List.Forall₂ (fun u cell => ∃ ps,
        (scrape_prices q u (env q u)).1 = Outcome.ok ps ∧ cell = toCell ps)
      TARGET_URLS row.2 := by
  unfold process_single_query at h
  rcases Option.map_eq_some'.mp h with ⟨cells, hc, hrow⟩
  subst hrow
  have h2 := seqO_map_forall2 hc
  refine ⟨rfl, h2.length_eq.symm, ?_⟩
  refine List.Forall₂.imp ?_ h2
  intro u cell hm
  cases ho : (scrape_prices q u (env q u)).1 with
  | ok ps =>
    rw [ho] at hm
    exact ⟨ps, rfl, (Option.some.inj hm).symm⟩
  | raised =>
    rw [ho] at hm
    exact Option.noConfusion (show (none : Option Cell) = some cell from hm)

/-- When every task's session launches, the row is built. -/
theorem process_single_query_total {q : String} {env : BatchEnv}
    (h : ∀ u, (env q u).sessionOk = true) :
    ∃ row, process_single_query q env = some row := by
  unfold process_single_query
  have hall : ∀ o ∈ TARGET_URLS.map (fun u =>
      match (scrape_prices q u (env q u)).1 with
      | Outcome.ok ps => some (toCell ps)
      | Outcome.raised => none), o.isSome = true := by
    intro o ho
    rcases List.mem_map.mp ho with ⟨u, _, hu⟩
    rcases @scrape_ok_of_session q u (env q u) (h u) with ⟨ps, hps⟩
    rw [← hu, hps]
    rfl
  rcases seqO_of_forall_some hall with ⟨cells, hcells⟩
  exact ⟨(q, cells), by rw [hcells]; rfl⟩

/-- Inversion of a successfully processed sheet. -/
theorem process_sheet_queries_some {queries : List String} {env : BatchEnv}
    {rows : List (String × List Cell)}
    (h : process_sheet_queries queries env = some rows) :
    rows.map Prod.fst = queries ∧
    ∀ row ∈ rows, ∃ q, process_single_query q env = some row := by
  have h2 := seqO_map_forall2 h
  constructor
  · refine forall2_fst_eq (List.Forall₂.imp ?_ h2)
    intro q row hq
    exact (process_single_query_some hq).1
  · intro row hrow
    rcases forall2_mem_right h2 hrow with ⟨q, _, hq⟩
    exact ⟨q, hq⟩

/-- The value a task can return: the empty list (swallowed exception), the
one-element `["Не найдено"]`, or a non-empty list of `clean_price` outputs. -/
theorem scrape_ok_shape {q u : String} {e : PageEnv} {ps : List String}
    (h : (scrape_prices q u e).1 = Outcome.ok ps) :
    ps = [] ∨ ps = ["Не найдено"] ∨
      (ps ≠ [] ∧ ∀ p ∈ ps, ∃ raw, p = clean_price raw) := by
  by_cases hs : e.sessionOk
  · cases hgs : get_selectors u with
    | none =>
      rw [scrape_none_val hs hgs] at h
      exact Or.inl (Outcome.ok.inj h.symm)
    | some sel =>
      by_cases hw : e.waitOk
      · rw [scrape_success_val hs hgs hw] at h
        have hps := Outcome.ok.inj h
        by_cases he : ((e.containers.take 5).filterMap
            (fun c => c.map clean_price)).isEmpty
        · rw [if_pos he] at hps
          exact Or.inr (Or.inl hps.symm)
        · rw [if_neg he] at hps
          refine Or.inr (Or.inr ⟨?_, ?_⟩)
          · rw [← hps]
            intro hnil
            rw [hnil] at he
            exact he rfl
          · intro p hp
            rw [← hps] at hp
            rcases List.mem_filterMap.mp hp with ⟨c, _, hc⟩
            rcases Option.map_eq_some'.mp hc with ⟨raw, _, hraw⟩
            exact ⟨raw, hraw.symm⟩
      · rw [scrape_timeout_val hs hgs (Bool.eq_false_iff.mpr hw)] at h
        exact Or.inl (Outcome.ok.inj h.symm)
  · rw [scrape_raised_iff.mpr (Bool.eq_false_iff.mpr hs)] at h
    cases h

end Scraper

namespace Scraper

/-! ## Claims C2 to C6 and C9: registry, tasks, batch -/

/-- C2 counterexample: for the unregistered domain `example.com`, locator
resolution does fail (`get_selectors` yields the `ValueError` case), but the
task's trace shows the session was acquired and the page navigated *before*
the resolution error — and the error is swallowed, the task returning `[]` —
contradicting "raised before any session is acquired and before any
navigation", "no session acquisition and no page navigation". -/
theorem C2_counterexample :
    get_selectors "https://example.com/path?q=" = none ∧
    scrape_prices "x" "https://example.com/path?q=" envOk =
      (Outcome.ok [], [Ev.acquire, Ev.navigate "https://example.com/path?q=x",
        Ev.resolve "https://example.com/path?q="]) ∧
    Ev.acquire ∈ (scrape_prices "x" "https://example.com/path?q=" envOk).2 := by
  decide

/-- C2 (amended): for every task on a URL matching no registered site the
locator resolution fails with the unsupported-site `ValueError`, but only
after the session is acquired and the navigation performed: the trace is
exactly `[acquire, navigate, resolve]`, and the error is caught by the task's
handler, which returns the empty result instead of raising. -/
theorem C2_unsupported_after_acquire :
    ∀ (q u : String) (e : PageEnv), e.sessionOk = true → get_selectors u = none →
      scrape_prices q u e =
        (Outcome.ok [], [Ev.acquire, Ev.navigate (u ++ q), Ev.resolve u]) :=
  fun _ _ _ hs hgs => scrape_none_val hs hgs

theorem C2_unsupported_after_acquire_witness :
    scrape_prices "x" "https://example.org/find?q=" envOk =
      (Outcome.ok [], [Ev.acquire, Ev.navigate ("https://example.org/find?q=" ++ "x"),
        Ev.resolve "https://example.org/find?q="]) :=
  C2_unsupported_after_acquire "x" "https://example.org/find?q=" envOk rfl (by decide)

/-- C3 counterexample: no failure ever yields an `"error"` sentinel cell.
A session-launch failure propagates out of the task (driver acquisition sits
outside the `try`), so the whole gathered row is aborted (`none`) rather than
one cell reading "error"; a timeout yields `[]`, rendered `"Не найдено"`; and
the unsupported-site error does consume a session (`acquire` occurs). -/
theorem C3_counterexample :
    (scrape_prices "x" "https://220volt.kz/search?query=" envNoSession).1 =
      Outcome.raised ∧
    process_single_query "x" (fun _ _ => envNoSession) = none ∧
    (scrape_prices "x" "https://220volt.kz/search?query=" envTimeout).1 =
      Outcome.ok [] ∧
    toCell [] = Cell.notFound ∧
    Ev.acquire ∈ (scrape_prices "x" "https://example.com/?s=" envOk).2 := by
  decide

/-- C3 (amended): once the session is acquired no exception escapes a task —
every failure is swallowed into a normally returned list (rendered
`"Не найдено"` when empty) — whereas a session-launch failure propagates with
no event, and a row is still built (with one cell per site) whenever every
task's session launches. -/
theorem C3_failure_handling :
    (∀ (q u : String) (e : PageEnv), e.sessionOk = true →
      ∃ ps, (scrape_prices q u e).1 = Outcome.ok ps) ∧
    (∀ (q u : String) (e : PageEnv), e.sessionOk = false →
      scrape_prices q u e = (Outcome.raised, [])) ∧
    (∀ (q : String) (env : BatchEnv), (∀ u, (env q u).sessionOk = true) →
      ∃ row, process_single_query q env = some row ∧ row.1 = q ∧
        row.2.length = TARGET_URLS.length) := by
  refine ⟨fun q u e hs => scrape_ok_of_session hs,
          fun q u e hs => scrape_raised_val hs, ?_⟩
  intro q env h
  rcases @process_single_query_total q env h with ⟨row, hrow⟩
  rcases process_single_query_some hrow with ⟨h1, h2, _⟩
  exact ⟨row, hrow, h1, h2⟩

theorem C3_failure_handling_witness :
    ∃ ps, (scrape_prices "x" "https://220volt.kz/search?query=" envTimeout).1 =
      Outcome.ok ps :=
  C3_failure_handling.1 "x" "https://220volt.kz/search?query=" envTimeout rfl

/-- C4: locator resolution is an ordered domain-substring first match over
the registry: every registered domain resolves to its own configured
container/price locator pair; in particular a `220volt.kz` URL resolves to
the `220volt.kz` locators although `volt.kz` is also a registered key and a
substring of that domain. -/
theorem C4_ordered_first_match :
    (∀ p ∈ selector_map, get_selectors ("https://" ++ p.1 ++ "/search") = some p.2) ∧
    get_selectors "https://220volt.kz/search?query=" =
      some ((Strategy.className, "cards__list"),
        (Strategy.className, "product__buy-info-price-actual_value")) ∧
    containsSub "volt.kz".data "220volt.kz".data = true := by
  refine ⟨?_, by decide, by decide⟩
  decide

theorem C4_ordered_first_match_witness :
    get_selectors ("https://" ++ "volt.kz" ++ "/search") =
      some ((Strategy.className, "multi-snippet"),
        (Strategy.xpath, ".//span[@class='multi-price']")) :=
  C4_ordered_first_match.1
    ("volt.kz", ((Strategy.className, "multi-snippet"),
      (Strategy.xpath, ".//span[@class='multi-price']"))) (by decide)

/-- Batch environment of the 2×2 scenario: the `(q1, elcentre.kz)` task times
out, every other task succeeds with one `100 ₸` price. -/
def env5 : BatchEnv := fun q u =>
  if q = "q1" ∧ u = "https://elcentre.kz/site_search?search_term=" then envTimeout
  else envOk

/-- C5: a container wait exceeding the 15-second bound is swallowed into the
empty result and rendered as exactly the `"Не найдено"` cell, with no retry
and no effect on any other cell: in the 2-query × 2-site batch with the one
timed-out task the table still has two complete rows and the sibling cell
holds the normal value. -/
theorem C5_timeout_not_found :
    (∀ (q u : String) (e : PageEnv) (sel : Locator × Locator),
      e.sessionOk = true → get_selectors u = some sel → e.waitOk = false →
      (scrape_prices q u e).1 = Outcome.ok [] ∧ toCell [] = Cell.notFound) ∧
    process_sheet_queries ["q1", "q2"] env5 =
      some [("q1", [Cell.prices ["100 "], Cell.notFound]),
            ("q2", [Cell.prices ["100 "], Cell.prices ["100 "]])] := by
  refine ⟨?_, by decide⟩
  intro q u e sel hs hgs hw
  exact ⟨by rw [scrape_timeout_val hs hgs hw], rfl⟩

theorem C5_timeout_not_found_witness :
    (scrape_prices "q1" "https://elcentre.kz/site_search?search_term="
      envTimeout).1 = Outcome.ok [] ∧ toCell [] = Cell.notFound :=
  C5_timeout_not_found.1 "q1" "https://elcentre.kz/site_search?search_term="
    envTimeout
    ((Strategy.className, "b-product-gallery"),
      (Strategy.xpath, ".//span[@class='b-product-gallery__current-price']"))
    rfl (by decide) rfl

/-- C6: with a live session and a successful wait, at most the first five
containers are scanned, in order; a container whose price element is absent
is skipped; zero containers or zero prices yield the `"Не найдено"` sentinel
result, otherwise the normalized prices (at most five). -/
theorem C6_scan_first_five :
    ∀ (q u : String) (e : PageEnv) (sel : Locator × Locator),
      e.sessionOk = true → get_selectors u = some sel → e.waitOk = true →
      (scrape_prices q u e).1 =
        Outcome.ok (if ((e.containers.take 5).filterMap
            (fun c => c.map clean_price)).isEmpty then ["Не найдено"]
          else (e.containers.take 5).filterMap (fun c => c.map clean_price)) ∧
      ((e.containers.take 5).filterMap (fun c => c.map clean_price)).length ≤ 5 := by
  intro q u e sel hs hgs hw
  refine ⟨by rw [scrape_success_val hs hgs hw], ?_⟩
  calc ((e.containers.take 5).filterMap (fun c => c.map clean_price)).length
      ≤ (e.containers.take 5).length := List.length_filterMap_le _ _
    _ ≤ 5 := by rw [List.length_take]; exact min_le_left _ _

/-- Six containers: the second and fifth lack a price element, the sixth is
beyond the scan limit. -/
def env6 : PageEnv :=
  { sessionOk := true, waitOk := true,
    containers := [some "10 ₸", none, some "1 000,5", some "звоните", none,
      some "7"] }

theorem C6_scan_first_five_witness :
    (scrape_prices "x" "https://220volt.kz/search?query=" env6).1 =
      Outcome.ok (if ((env6.containers.take 5).filterMap
          (fun c => c.map clean_price)).isEmpty then ["Не найдено"]
        else (env6.containers.take 5).filterMap (fun c => c.map clean_price)) ∧
    ((env6.containers.take 5).filterMap
      (fun c => c.map clean_price)).length ≤ 5 :=
  C6_scan_first_five "x" "https://220volt.kz/search?query=" env6
    ((Strategy.className, "cards__list"),
      (Strategy.className, "product__buy-info-price-actual_value"))
    rfl (by decide) rfl

theorem forall2_mem_left {α β : Type} {r : α → β → Prop} {l : List α} {bs : List β}
    (h : List.Forall₂ r l bs) {a : α} (ha : a ∈ l) : ∃ b ∈ bs, r a b := by
  induction h with
  | nil => cases ha
  | @cons a2 b2 l2 bs2 h1 _ ih =>
    rcases List.mem_cons.mp ha with h2 | h2
    · subst h2; exact ⟨b2, List.mem_cons_self b2 bs2, h1⟩
    · rcases ih h2 with ⟨b, hb, hr⟩
      exact ⟨b, List.mem_cons_of_mem b2 hb, hr⟩

theorem forall2_map_eq {α β γ : Type} {f : α → γ} {g : β → γ}
    {l : List α} {bs : List β}
    (h : List.Forall₂ (fun a b => g b = f a) l bs) : bs.map g = l.map f := by
  induction h with
  | nil => rfl
  | cons h1 _ ih => simp only [List.map_cons, ih, h1]

/-- C7: whenever the batch pipeline completes, the output workbook has one
sheet per input sheet carrying the identifier column, in input order; per
sheet exactly one row per non-blank identifier cell, in input order and
labelled with it; every row exactly one cell per configured target site; and
every sheet the header `[identifier column, site domains in registration
order]`. -/
theorem C7_table_shape :
    ∀ (dfs : List (String × Sheet)) (env : BatchEnv)
      (tbl : List (String × List (String × List Cell))),
      process_all_sheets dfs env = some tbl →
      result_header = ["Артикул", "220volt.kz", "elcentre.kz"] ∧
      result_header.length = 1 + TARGET_URLS.length ∧
      tbl.map Prod.fst = (extract_search_queries dfs).map Prod.fst ∧
      List.Forall₂ (fun sht ex => sht.2.map Prod.fst = ex.2)
        tbl (extract_search_queries dfs) ∧
      ∀ sht ∈ tbl, ∀ row ∈ sht.2, row.2.length = TARGET_URLS.length := by
  intro dfs env tbl h
  unfold process_all_sheets at h
  have h2 := seqO_map_forall2 h
  have hflip : List.Forall₂
      (fun (t : String × List (String × List Cell)) (p : String × List String) =>
        ∃ rows, process_sheet_queries p.2 env = some rows ∧ t = (p.1, rows))
      tbl (extract_search_queries dfs) := by
    refine List.Forall₂.flip (List.Forall₂.imp ?_ h2)
    intro p t hp
    rcases Option.map_eq_some'.mp hp with ⟨rows, hrows, ht⟩
    exact ⟨rows, hrows, ht.symm⟩
  refine ⟨by decide, by decide, ?_, ?_, ?_⟩
  · refine forall2_map_eq (List.Forall₂.imp ?_ h2)
    intro p t hp
    rcases Option.map_eq_some'.mp hp with ⟨rows, _, ht⟩
    rw [← ht]
  · refine List.Forall₂.imp ?_ hflip
    intro t p hp
    rcases hp with ⟨rows, hrows, ht⟩
    rw [ht]
    exact (process_sheet_queries_some hrows).1
  · intro sht hsht row hrow
    rcases forall2_mem_left hflip hsht with ⟨p, _, rows, hrows, hsht2⟩
    rw [hsht2] at hrow
    rcases (process_sheet_queries_some hrows).2 row hrow with ⟨q, hq⟩
    exact (process_single_query_some hq).2.1

/-- Two-sheet workbook: `S1` has the identifier column with a blank middle
row, `S2` lacks the column. -/
def dfs7 : List (String × Sheet) :=
  [("S1", { hasArtikul := true, artikul := [some "a", none, some "b"] }),
   ("S2", { hasArtikul := false, artikul := [some "c"] })]

/-- The table the pipeline produces from `dfs7` when every task succeeds. -/
def tbl7 : List (String × List (String × List Cell)) :=
  [("S1", [("a", [Cell.prices ["100 "], Cell.prices ["100 "]]),
           ("b", [Cell.prices ["100 "], Cell.prices ["100 "]])])]

theorem C7_table_shape_witness :
    result_header = ["Артикул", "220volt.kz", "elcentre.kz"] ∧
    result_header.length = 1 + TARGET_URLS.length ∧
    tbl7.map Prod.fst = (extract_search_queries dfs7).map Prod.fst ∧
    List.Forall₂ (fun sht ex => sht.2.map Prod.fst = ex.2)
      tbl7 (extract_search_queries dfs7) ∧
    ∀ sht ∈ tbl7, ∀ row ∈ sht.2, row.2.length = TARGET_URLS.length :=
  C7_table_shape dfs7 (fun _ _ => envOk) tbl7 (by decide)

/-- C9 (code bug): no execution path of `scrape_prices` ever releases the
browser session — the source never calls `driver.quit()` inside the task
(`quit_driver` has no caller and the `finally` block only logs) — while a
successful launch does acquire one, so the session outlives its task on
every exit path. -/
theorem C9_session_never_released :
    (∀ (q u : String) (e : PageEnv), Ev.release ∉ (scrape_prices q u e).2) ∧
    Ev.acquire ∈ (scrape_prices "x" "https://220volt.kz/search?query=" envOk).2 := by
  refine ⟨?_, by decide⟩
  intro q u e
  by_cases hs : e.sessionOk
  · cases hgs : get_selectors u with
    | none => rw [scrape_none_val hs hgs]; simp
    | some sel =>
      by_cases hw : e.waitOk
      · rw [scrape_success_val hs hgs hw]; simp
      · rw [scrape_timeout_val hs hgs (Bool.eq_false_iff.mpr hw)]; simp
  · rw [scrape_raised_val (Bool.eq_false_iff.mpr hs)]
    simp

end Scraper

namespace Scraper

/-! ## Claim C10: output cell values -/

/-- `clean_price` never produces the string `"error"`: its output is either
the sentinel or ends in the canonical trailing space. -/
theorem clean_price_ne_error (s : String) : clean_price s ≠ "error" := by
  cases h : searchNum (nbspFix s.data) with
  | none =>
    rw [clean_price_eq_of_search_none h]
    decide
  | some g =>
    rw [clean_price_eq_of_search h]
    intro he
    have hd : cleanupMatch g ++ [' '] = "error".data := congrArg String.data he
    have h2 := congrArg List.getLast? hd
    rw [List.getLast?_concat] at h2
    exact absurd h2 (by decide)

/-- C10 counterexample: not every task failure produces the empty list /
"Не найдено" cell — a session-launch failure raises out of the task and
aborts the whole request (`none`, the error response), emitting no cell at
all; and a task that finds containers but no price elements returns the
one-element list `["Не найдено"]`, which becomes the non-empty-list cell
`Cell.prices ["Не найдено"]`, not the bare sentinel. -/
theorem C10_counterexample :
    (scrape_prices "x" "https://220volt.kz/search?query=" envNoSession).1 =
      Outcome.raised ∧
    search_artikul "x" (fun _ _ => envNoSession) = none ∧
    (scrape_prices "x" "https://220volt.kz/search?query=" envNoPrices).1 =
      Outcome.ok ["Не найдено"] ∧
    toCell ["Не найдено"] = Cell.prices ["Не найдено"] := by
  decide

/-- C10 (amended): every cell of a successfully built batch row is the bare
sentinel `"Не найдено"` (task returned `[]`: timeout, unsupported site, any
swallowed failure), the one-element list `["Не найдено"]` (containers but no
prices), or a non-empty list of `clean_price` outputs; the string `"error"`
never occurs in any cell; the interactive endpoint's price lists likewise;
but when a session fails to launch the row/request is aborted entirely
(`none`), so a swallowed failure — not a launch failure — is what is
indistinguishable from "not found". -/
theorem C10_cell_values :
    (∀ (q : String) (env : BatchEnv) (row : String × List Cell),
      process_single_query q env = some row →
      ∀ cell ∈ row.2,
        (cell = Cell.notFound ∨ cell = Cell.prices ["Не найдено"] ∨
          ∃ ps, cell = Cell.prices ps ∧ ps ≠ [] ∧
            ∀ p ∈ ps, ∃ raw, p = clean_price raw) ∧
        (∀ ps, cell = Cell.prices ps → "error" ∉ ps)) ∧
    (∀ (a : String) (env : BatchEnv) (res : List (String × String × List String)),
      search_artikul a env = some res →
      ∀ r ∈ res,
        (r.2.2 = ["Не найдено"] ∨
          (r.2.2 ≠ [] ∧ ∀ p ∈ r.2.2, ∃ raw, p = clean_price raw)) ∧
        "error" ∉ r.2.2) := by
  constructor
  · intro q env row h cell hcell
    rcases process_single_query_some h with ⟨_, _, h3⟩
    rcases forall2_mem_right h3 hcell with ⟨u, _, ps0, hok, hcell2⟩
    rcases scrape_ok_shape hok with hsh | hsh | ⟨hne, hcp⟩
    · subst hsh
      constructor
      · exact Or.inl hcell2
      · intro ps hps
        rw [hcell2] at hps
        exact Cell.noConfusion hps
    · subst hsh
      constructor
      · exact Or.inr (Or.inl hcell2)
      · intro ps hps
        rw [hcell2] at hps
        have := Cell.prices.inj hps
        rw [← this]
        decide
    · have htc : toCell ps0 = Cell.prices ps0 := by
        cases ps0 with
        | nil => exact absurd rfl hne
        | cons a t => rfl
      rw [htc] at hcell2
      constructor
      · exact Or.inr (Or.inr ⟨ps0, hcell2, hne, hcp⟩)
      · intro ps hps
        rw [hcell2] at hps
        have hps2 := Cell.prices.inj hps
        rw [← hps2]
        intro herr
        rcases hcp "error" herr with ⟨raw, hraw⟩
        exact clean_price_ne_error raw hraw.symm
  · intro a env res h r hr
    unfold search_artikul at h
    have h2 := seqO_map_forall2 h
    rcases forall2_mem_right h2 hr with ⟨u, _, hu⟩
    cases ho : (scrape_prices a u (env a u)).1 with
    | ok ps =>
      rw [ho] at hu
      have hru := Option.some.inj hu
      rcases scrape_ok_shape ho with hsh | hsh | ⟨hne, hcp⟩
      · subst hsh
        rw [← hru]
        refine ⟨Or.inl rfl, ?_⟩
        show "error" ∉ ["Не найдено"]
        decide
      · subst hsh
        rw [← hru]
        refine ⟨Or.inl rfl, ?_⟩
        show "error" ∉ ["Не найдено"]
        decide
      · have hif : (if ps.isEmpty then ["Не найдено"] else ps) = ps := by
          cases ps with
          | nil => exact absurd rfl hne
          | cons x t => rfl
        rw [← hru]
        simp only [hif]
        refine ⟨Or.inr ⟨hne, hcp⟩, ?_⟩
        intro herr
        rcases hcp "error" herr with ⟨raw, hraw⟩
        exact clean_price_ne_error raw hraw.symm
    | raised =>
      rw [ho] at hu
      exact Option.noConfusion
        (show (none : Option (String × String × List String)) = some r from hu)

theorem C10_cell_values_witness :
    (Cell.prices ["100 "] = Cell.notFound ∨
      Cell.prices ["100 "] = Cell.prices ["Не найдено"] ∨
      ∃ ps, Cell.prices ["100 "] = Cell.prices ps ∧ ps ≠ [] ∧
        ∀ p ∈ ps, ∃ raw, p = clean_price raw) ∧
    (∀ ps, Cell.prices ["100 "] = Cell.prices ps → "error" ∉ ps) :=
  C10_cell_values.1 "x" (fun _ _ => envOk)
    ("x", [Cell.prices ["100 "], Cell.prices ["100 "]]) (by decide)
    (Cell.prices ["100 "]) (by decide)

end Scraper
